import Mathlib

/-!
Verification development for the mirrors-countme core: a shallow embedding of
the weekly-bucketing aggregator (`mirrors_countme/totals.py`), the time/week
model (`mirrors_countme/util.py`, `mirrors_countme/constants.py`), the
ingestion pipeline (`mirrors_countme/parse.py`, `mirrors_countme/writers.py`)
and the log matcher (`mirrors_countme/matchers.py`), together with theorems
about the properties those modules are specified to satisfy.

SQLite tables are embedded as Lean lists of rows; SQL `MIN`/`MAX`/`WHERE`
become explicit list operations.  Python floor division `//` is embedded as
`Int.fdiv`; SQLite integer division (which truncates toward zero) as
`Int.tdiv`.
-/

namespace Countme

/-- Seconds in a day (`DAY_LEN` in `constants.py`). -/
def DAY_LEN : Int := 24 * 60 * 60

/-- Seconds in a week (`WEEK_LEN` in `constants.py`). -/
def WEEK_LEN : Int := 7 * DAY_LEN

/-- Epoch of the week numbering, Mon Jan 5 1970 UTC (`COUNTME_EPOCH`). -/
def COUNTME_EPOCH : Int := 345600

/-- Padding for log-delivery reordering (`LOG_JITTER_WINDOW`). -/
def LOG_JITTER_WINDOW : Int := 600

/-- First week of countme data (`COUNTME_START_WEEKNUM`). -/
def COUNTME_START_WEEKNUM : Int := 2614

/-- Week number of a timestamp (`weeknum` in `util.py`):
`(int(timestamp) - COUNTME_EPOCH) // WEEK_LEN`, Python floor division. -/
def weeknum (t : Int) : Int := (t - COUNTME_EPOCH).fdiv WEEK_LEN

/-- Start timestamp of a week, as computed inside `RawDB.week_iter`
(`start_ts = weeknum * WEEK_LEN + COUNTME_EPOCH`). -/
def week_start (w : Int) : Int := w * WEEK_LEN + COUNTME_EPOCH

/-- Week number as computed by the SQL expression
`(timestamp-COUNTME_EPOCH)/WEEK_LEN` in `BucketSelect`; SQLite integer
division truncates toward zero. -/
def sqlWeeknum (t : Int) : Int := (t - COUNTME_EPOCH).tdiv WEEK_LEN

/-- Row of the `countme_raw` table (class `CountmeItem` in
`output_items.py`). -/
structure CountmeItem where
  timestamp : Int
  host : String
  os_name : String
  os_version : String
  os_variant : String
  os_arch : String
  sys_age : Int
  repo_tag : String
  repo_arch : String
  deriving DecidableEq

/-- Grouping key for weekly totals (class `CountBucket` in `totals.py`):
the `CountmeItem` fields with `timestamp` replaced by `weeknum` and `host`
dropped. -/
structure CountBucket where
  weeknum : Int
  os_name : String
  os_version : String
  os_variant : String
  os_arch : String
  sys_age : Int
  repo_tag : String
  repo_arch : String
  deriving DecidableEq

/-- Row of the `countme_totals` table (class `TotalsItem` in `totals.py`):
a `CountBucket` with a `hits` count on the front, as written by
`totals.write_items((hits,) + bucket ...)`. -/
structure TotalsItem where
  hits : Nat
  bucket : CountBucket
  deriving DecidableEq

/-- SQL `WHERE sys_age >= 0` filter: the countme record class. -/
def isCountmeRow (r : CountmeItem) : Bool := decide (0 ≤ r.sys_age)

/-- SQL `WHERE sys_age < 0` filter: the unique-IP record class. -/
def isUniqueRow (r : CountmeItem) : Bool := decide (r.sys_age < 0)

/-- SQL `MIN` aggregate over a column: `NULL` (`none`) on the empty set,
as returned through `_fetchone_or_none` in `util.py`. -/
def sqlMin : List Int → Option Int
  | [] => none
  | x :: xs =>
    match sqlMin xs with
    | none => some x
    | some m => some (min x m)

/-- SQL `MAX` aggregate over a column: `NULL` (`none`) on the empty set,
as returned through `_fetchone_or_none` in `util.py`. -/
def sqlMax : List Int → Option Int
  | [] => none
  | x :: xs =>
    match sqlMax xs with
    | none => some x
    | some m => some (max x m)

/-- Property `MinMaxPropMixin.mintime_countme`: `SELECT MIN(timestamp) ... WHERE
sys_age >= 0`.  This is `RawDB.mintime`. -/
def mintime_countme (raw : List CountmeItem) : Option Int :=
  sqlMin ((raw.filter isCountmeRow).map (fun r => r.timestamp))

/-- Property `MinMaxPropMixin.maxtime_countme`: `SELECT MAX(timestamp) ... WHERE
sys_age >= 0`.  This is `RawDB.maxtime`. -/
def maxtime_countme (raw : List CountmeItem) : Option Int :=
  sqlMax ((raw.filter isCountmeRow).map (fun r => r.timestamp))

/-- Property `MinMaxPropMixin.mintime_unique`: `SELECT MIN(timestamp) ... WHERE
sys_age < 0`.  This is `RawDBU.mintime`. -/
def mintime_unique (raw : List CountmeItem) : Option Int :=
  sqlMin ((raw.filter isUniqueRow).map (fun r => r.timestamp))

/-- Property `MinMaxPropMixin.maxtime_unique`: `SELECT MAX(timestamp) ... WHERE
sys_age < 0`.  This is `RawDBU.maxtime`. -/
def maxtime_unique (raw : List CountmeItem) : Option Int :=
  sqlMax ((raw.filter isUniqueRow).map (fun r => r.timestamp))

/-- Ascending list `a, a+1, ..` of a given length. -/
def intRangeAux (a : Int) : Nat → List Int
  | 0 => []
  | n + 1 => a :: intRangeAux (a + 1) n

/-- Embedding of Python `range(a, b)` over integers as an ascending list. -/
def intRange (a b : Int) : List Int := intRangeAux a (b - a).toNat

/-- Method `RawDB.complete_weeks` as a function of the min/max timestamps: `[]`
when `mintime` is `None`, otherwise
`range(max(weeknum(mintime), COUNTME_START_WEEKNUM),
       max(weeknum(maxtime - LOG_JITTER_WINDOW), COUNTME_START_WEEKNUM))`.
(When `mintime` is `some`, `maxtime` is `some` as well, since both are
aggregates over the same filtered rows; the `some, none` case is
unreachable.) -/
def complete_weeks_of (mn mx : Option Int) : List Int :=
  match mn, mx with
  | some m, some M =>
    intRange (max (weeknum m) COUNTME_START_WEEKNUM)
      (max (weeknum (M - LOG_JITTER_WINDOW)) COUNTME_START_WEEKNUM)
  | _, _ => []

/-- Method `RawDB.complete_weeks`: complete weeks of the countme stream. -/
def complete_weeks (raw : List CountmeItem) : List Int :=
  complete_weeks_of (mintime_countme raw) (maxtime_countme raw)

/-- Method `RawDBU.complete_weeks` (inherited from `RawDB` but with the
unique-IP `mintime`/`maxtime` properties). -/
def complete_weeksU (raw : List CountmeItem) : List Int :=
  complete_weeks_of (mintime_unique raw) (maxtime_unique raw)

/-! Basic lemmas about the week model and `intRange`. -/

theorem weeknum_eq (t : Int) : weeknum t = (t - COUNTME_EPOCH) / WEEK_LEN :=
  Int.fdiv_eq_ediv _ (by decide)

theorem mem_intRangeAux {w : Int} :
    ∀ (n : Nat) (a : Int), w ∈ intRangeAux a n ↔ a ≤ w ∧ w < a + n := by
  intro n
  induction n with
  | zero =>
    intro a
    simp [intRangeAux]
  | succ k ih =>
    intro a
    simp [intRangeAux, ih]
    omega

theorem mem_intRange {a b w : Int} : w ∈ intRange a b ↔ a ≤ w ∧ w < b := by
  unfold intRange
  rw [mem_intRangeAux]
  omega

theorem intRange_eq_nil {a b : Int} (h : b ≤ a) : intRange a b = [] := by
  unfold intRange
  have h0 : (b - a).toNat = 0 := by omega
  rw [h0]
  rfl

theorem intRangeAux_sane : intRange 3 7 = [3, 4, 5, 6] := rfl

/-- C9: for every integer timestamp `t`,
`weeknum(weeknum(t) * WEEK_LEN + COUNTME_EPOCH) == weeknum(t)`: mapping a
timestamp to its week number, taking that week's start timestamp (as
computed by `week_iter`), and mapping back yields the same week number,
with floor integer-division semantics. -/
theorem weeknum_roundtrip (t : Int) :
    weeknum (week_start (weeknum t)) = weeknum t := by
  rw [weeknum_eq (week_start (weeknum t)), week_start, add_sub_cancel_right]
  exact Int.mul_ediv_cancel _ (by decide)

theorem week_start_le_iff {w : Int} {t : Int} :
    w ≤ weeknum t ↔ week_start w ≤ t := by
  rw [weeknum_eq]
  rw [Int.le_ediv_iff_mul_le (by decide : (0:Int) < WEEK_LEN)]
  unfold week_start
  omega

/-- C1: `RawDB.complete_weeks` returns the empty range when the store has
no countme rows (`mintime` is `None`); otherwise, with minimum timestamp
`m` and maximum timestamp `M` over the countme rows, it returns exactly
the half-open range from `max(weeknum(m), COUNTME_START_WEEKNUM)` up to
but excluding `weeknum(M - LOG_JITTER_WINDOW)`, and a week `w` lies in the
range iff `w` is at least the start week and
`M >= week_start(w+1) + LOG_JITTER_WINDOW`. -/
theorem complete_weeks_range (raw : List CountmeItem) :
    (mintime_countme raw = none → complete_weeks raw = []) ∧
    ∀ m M, mintime_countme raw = some m → maxtime_countme raw = some M →
      complete_weeks raw =
        intRange (max (weeknum m) COUNTME_START_WEEKNUM)
          (weeknum (M - LOG_JITTER_WINDOW)) ∧
      ∀ w : Int, w ∈ complete_weeks raw ↔
        max (weeknum m) COUNTME_START_WEEKNUM ≤ w ∧
          week_start (w + 1) + LOG_JITTER_WINDOW ≤ M := by
  constructor
  · intro h
    unfold complete_weeks
    rw [h]
    rfl
  · intro m M hm hM
    have hcw : complete_weeks raw =
        intRange (max (weeknum m) COUNTME_START_WEEKNUM)
          (max (weeknum (M - LOG_JITTER_WINDOW)) COUNTME_START_WEEKNUM) := by
      unfold complete_weeks
      rw [hm, hM]
      rfl
    have hlt : ∀ w : Int, w < weeknum (M - LOG_JITTER_WINDOW) ↔
        week_start (w + 1) + LOG_JITTER_WINDOW ≤ M := by
      intro w
      rw [Int.lt_iff_add_one_le, week_start_le_iff]
      constructor <;> intro h <;> [skip; skip] <;>
        · unfold week_start at *
          unfold LOG_JITTER_WINDOW at *
          omega
    constructor
    · rcases le_total COUNTME_START_WEEKNUM (weeknum (M - LOG_JITTER_WINDOW))
        with hle | hle
      · rw [hcw, max_eq_left hle]
      · rw [hcw, max_eq_right hle,
          intRange_eq_nil (le_max_right _ _),
          intRange_eq_nil (le_trans hle (le_max_right _ _))]
    · intro w
      rw [hcw, mem_intRange]
      constructor
      · rintro ⟨h1, h2⟩
        refine ⟨h1, (hlt w).mp ?_⟩
        rcases le_total COUNTME_START_WEEKNUM (weeknum (M - LOG_JITTER_WINDOW))
          with hle | hle
        · rwa [max_eq_left hle] at h2
        · rw [max_eq_right hle] at h2
          omega
      · rintro ⟨h1, h2⟩
        exact ⟨h1, lt_of_lt_of_le ((hlt w).mpr h2) (le_max_left _ _)⟩

/-- Concrete raw store for the C1 witness: one countme row at the start of
week 2900 and one countme row 600 seconds into week 2901. -/
def exRawC1 : List CountmeItem :=
  [⟨1754265600, "10.0.0.1", "Fedora Linux", "38", "workstation", "x86_64",
      0, "f38", "x86_64"⟩,
   ⟨1754871000, "10.0.0.2", "Fedora Linux", "38", "server", "x86_64",
      1, "f38", "x86_64"⟩]

/-- Witness for C1 at a concrete store. -/
theorem complete_weeks_range_witness :
    complete_weeks exRawC1 =
      intRange (max (weeknum 1754265600) COUNTME_START_WEEKNUM)
        (weeknum (1754871000 - LOG_JITTER_WINDOW)) ∧
    ((2900 : Int) ∈ complete_weeks exRawC1 ↔
      max (weeknum 1754265600) COUNTME_START_WEEKNUM ≤ 2900 ∧
        week_start (2900 + 1) + LOG_JITTER_WINDOW ≤ 1754871000) := by
  have h := (complete_weeks_range exRawC1).2 1754265600 1754871000
    (by decide) (by decide)
  exact ⟨h.1, h.2 2900⟩

/-- C6: the min/max-timestamp queries are `Option`-valued and return an
explicit `none` (rather than raising) when no row satisfies the record
class filter — in particular on an empty store — and `complete_weeks`
then short-circuits to the empty range, for both the countme and the
unique-IP variants. -/
theorem minmax_none_short_circuit (raw : List CountmeItem) :
    (raw.filter isCountmeRow = [] →
      mintime_countme raw = none ∧ maxtime_countme raw = none ∧
        complete_weeks raw = []) ∧
    (raw.filter isUniqueRow = [] →
      mintime_unique raw = none ∧ maxtime_unique raw = none ∧
        complete_weeksU raw = []) := by
  constructor
  · intro h
    have h1 : mintime_countme raw = none := by
      unfold mintime_countme
      rw [h]
      rfl
    have h2 : maxtime_countme raw = none := by
      unfold maxtime_countme
      rw [h]
      rfl
    refine ⟨h1, h2, ?_⟩
    unfold complete_weeks
    rw [h1, h2]
    rfl
  · intro h
    have h1 : mintime_unique raw = none := by
      unfold mintime_unique
      rw [h]
      rfl
    have h2 : maxtime_unique raw = none := by
      unfold maxtime_unique
      rw [h]
      rfl
    refine ⟨h1, h2, ?_⟩
    unfold complete_weeksU
    rw [h1, h2]
    rfl

/-- Concrete store with a single unique-IP row (no countme rows). -/
def exRawOnlyUnique : List CountmeItem :=
  [⟨1754265600, "10.0.0.1", "Fedora Linux", "38", "workstation", "x86_64",
      -1, "f38", "x86_64"⟩]

/-- Concrete store with a single countme row (no unique-IP rows). -/
def exRawOnlyCountme : List CountmeItem :=
  [⟨1754265600, "10.0.0.1", "Fedora Linux", "38", "workstation", "x86_64",
      3, "f38", "x86_64"⟩]

/-- Witness for C6 at concrete stores: a store with only unique-IP rows has
`none` countme min/max and no complete countme weeks, and vice versa. -/
theorem minmax_none_short_circuit_witness :
    (mintime_countme exRawOnlyUnique = none ∧
      maxtime_countme exRawOnlyUnique = none ∧
      complete_weeks exRawOnlyUnique = []) ∧
    (mintime_unique exRawOnlyCountme = none ∧
      maxtime_unique exRawOnlyCountme = none ∧
      complete_weeksU exRawOnlyCountme = []) :=
  ⟨(minmax_none_short_circuit exRawOnlyUnique).1 (by decide),
   (minmax_none_short_circuit exRawOnlyCountme).2 (by decide)⟩

/-! Week bucketing: `RawDB.week_iter`, `BucketSelect`, and the per-week
counting loop of `totals()`. -/

/-- Rows scanned by `RawDB.week_iter(weeknum, select)`: SQL
`WHERE timestamp >= start_ts AND timestamp < end_ts AND sys_age >= 0`
with `start_ts = weeknum * WEEK_LEN + COUNTME_EPOCH` and
`end_ts = start_ts + WEEK_LEN`. -/
def week_iter_rows (raw : List CountmeItem) (w : Int) : List CountmeItem :=
  raw.filter (fun r =>
    decide (week_start w ≤ r.timestamp) &&
      decide (r.timestamp < week_start w + WEEK_LEN) && isCountmeRow r)

/-- Projection of a raw row through `BucketSelect` (`totals.py`):
`((timestamp-COUNTME_EPOCH)/WEEK_LEN) as weeknum` plus the pass-through
bucket columns. -/
def bucketOf (r : CountmeItem) : CountBucket :=
  ⟨sqlWeeknum r.timestamp, r.os_name, r.os_version, r.os_variant, r.os_arch,
    r.sys_age, r.repo_tag, r.repo_arch⟩

/-- Distinct keys of a stream in first-occurrence order: the iteration
order of a Python `Counter` built from the stream. -/
def counterKeys {α : Type} [DecidableEq α] : List α → List α
  | [] => []
  | x :: xs => x :: (counterKeys xs).filter (fun y => decide (y ≠ x))

/-- Python `Counter` over a stream of buckets followed by
`write_items((hits,) + bucket for bucket, hits in hitcount.items())`:
one `TotalsItem` per distinct bucket, whose `hits` is the number of
occurrences of that bucket in the stream. -/
def counterRows (buckets : List CountBucket) : List TotalsItem :=
  (counterKeys buckets).map (fun b => ⟨buckets.count b, b⟩)

/-- Rows written by the countme pass of `totals()` for one week
(`totals.py` lines 281-289): bucket counting over
`rawdb.week_iter(week, select=BucketSelect)`. -/
def weekRowsC (raw : List CountmeItem) (w : Int) : List TotalsItem :=
  counterRows ((week_iter_rows raw w).map bucketOf)

theorem mem_week_iter_rows {raw : List CountmeItem} {w : Int} {r : CountmeItem} :
    r ∈ week_iter_rows raw w ↔
      r ∈ raw ∧ week_start w ≤ r.timestamp ∧
        r.timestamp < week_start w + WEEK_LEN ∧ 0 ≤ r.sys_age := by
  unfold week_iter_rows
  rw [List.mem_filter]
  simp [isCountmeRow, and_assoc]

theorem mem_counterKeys {α : Type} [DecidableEq α] {b : α} :
    ∀ {l : List α}, b ∈ counterKeys l ↔ b ∈ l := by
  intro l
  induction l with
  | nil => simp [counterKeys]
  | cons x xs ih =>
    simp only [counterKeys, List.mem_cons, List.mem_filter, ih,
      decide_eq_true_eq]
    by_cases hbx : b = x <;> simp [hbx]

theorem nodup_counterKeys {α : Type} [DecidableEq α] :
    ∀ (l : List α), (counterKeys l).Nodup := by
  intro l
  induction l with
  | nil => simp [counterKeys]
  | cons x xs ih =>
    rw [counterKeys, List.nodup_cons]
    constructor
    · intro hx
      have h2 := (List.mem_filter.mp hx).2
      simp at h2
    · exact List.Nodup.filter _ ih

theorem mem_counterRows {buckets : List CountBucket} {t : TotalsItem} :
    t ∈ counterRows buckets ↔
      t.bucket ∈ buckets ∧ t.hits = buckets.count t.bucket := by
  unfold counterRows
  rw [List.mem_map]
  constructor
  · rintro ⟨b, hb, rfl⟩
    exact ⟨mem_counterKeys.mp hb, rfl⟩
  · rintro ⟨hb, hh⟩
    refine ⟨t.bucket, mem_counterKeys.mpr hb, ?_⟩
    cases t with
    | mk h b =>
      simp only at hh
      rw [hh]

theorem counterRows_buckets_nodup (buckets : List CountBucket) :
    ((counterRows buckets).map (fun t => t.bucket)).Nodup := by
  unfold counterRows
  rw [List.map_map]
  have hid : ((fun t : TotalsItem => t.bucket) ∘
      (fun b => (⟨buckets.count b, b⟩ : TotalsItem))) = id := rfl
  rw [hid, List.map_id]
  exact nodup_counterKeys _

theorem start_le_of_mem_complete_weeks_of {mn mx : Option Int} {w : Int}
    (h : w ∈ complete_weeks_of mn mx) : COUNTME_START_WEEKNUM ≤ w := by
  rcases mn with _ | m
  · simp [complete_weeks_of] at h
  · rcases mx with _ | M
    · simp [complete_weeks_of] at h
    · rw [complete_weeks_of] at h
      have hm := (mem_intRange.mp h).1
      exact le_trans (le_max_right _ _) hm

theorem mem_complete_weeks_start {raw : List CountmeItem} {w : Int}
    (h : w ∈ complete_weeks raw) : COUNTME_START_WEEKNUM ≤ w :=
  start_le_of_mem_complete_weeks_of h

theorem mem_complete_weeksU_start {raw : List CountmeItem} {w : Int}
    (h : w ∈ complete_weeksU raw) : COUNTME_START_WEEKNUM ≤ w :=
  start_le_of_mem_complete_weeks_of h

theorem sqlWeeknum_of_week {w t : Int} (hw : 0 ≤ w)
    (h1 : week_start w ≤ t) (h2 : t < week_start w + WEEK_LEN) :
    sqlWeeknum t = w := by
  have hW : (0 : Int) < WEEK_LEN := by decide
  have hwW : 0 ≤ w * WEEK_LEN := mul_nonneg hw (le_of_lt hW)
  have h0 : 0 ≤ t - COUNTME_EPOCH := by
    unfold week_start at h1
    unfold COUNTME_EPOCH at *
    omega
  unfold sqlWeeknum
  rw [Int.tdiv_eq_ediv h0 (by decide)]
  have heq : t - COUNTME_EPOCH =
      (t - COUNTME_EPOCH - w * WEEK_LEN) + w * WEEK_LEN := by ring
  rw [heq, Int.add_mul_ediv_right _ _ (by decide : WEEK_LEN ≠ (0 : Int))]
  rw [Int.ediv_eq_zero_of_lt ?_ ?_]
  · omega
  · unfold week_start at h1
    omega
  · unfold week_start at h2
    omega

/-- C3: for every complete week `w`, the countme pass writes exactly one
`TotalsItem` per distinct `CountBucket` value occurring among the raw rows
with timestamp in `[week_start w, week_start w + WEEK_LEN)` and
`sys_age >= 0` — one row per distinct bucket, with `hits` the number of
raw rows in the bucket — and every written row carries weeknum `w`. -/
theorem countme_week_rows (raw : List CountmeItem) (w : Int)
    (hw : w ∈ complete_weeks raw) :
    ((weekRowsC raw w).map (fun t => t.bucket)).Nodup ∧
    (∀ t : TotalsItem, t ∈ weekRowsC raw w ↔
      t.bucket ∈ (week_iter_rows raw w).map bucketOf ∧
        t.hits = ((week_iter_rows raw w).map bucketOf).count t.bucket) ∧
    ∀ t ∈ weekRowsC raw w, t.bucket.weeknum = w := by
  refine ⟨counterRows_buckets_nodup _, fun t => mem_counterRows, ?_⟩
  intro t ht
  have hmem := (mem_counterRows.mp ht).1
  rw [List.mem_map] at hmem
  obtain ⟨r, hr, hb⟩ := hmem
  have hfil := mem_week_iter_rows.mp hr
  have hw0 : (0 : Int) ≤ w :=
    le_trans (by decide) (mem_complete_weeks_start hw)
  rw [← hb]
  exact sqlWeeknum_of_week hw0 hfil.2.1 hfil.2.2.1

/-- Concrete raw store for the C3 witness: two workstation hits and one
server hit in week 2900, plus a later countme row 600 seconds into week
2901 that pushes the completeness boundary past week 2900. -/
def exRawC3 : List CountmeItem :=
  [⟨1754265610, "h1", "Fedora", "38", "workstation", "x86_64",
      1, "f38", "x86_64"⟩,
   ⟨1754265620, "h2", "Fedora", "38", "workstation", "x86_64",
      1, "f38", "x86_64"⟩,
   ⟨1754265630, "h3", "Fedora", "38", "server", "x86_64",
      1, "f38", "x86_64"⟩,
   ⟨1754871000, "h4", "Fedora", "38", "workstation", "x86_64",
      0, "f38", "x86_64"⟩]

/-- Witness for C3: week 2900 is complete in `exRawC3`, the
characterization applies, and the countme pass writes exactly two rows
for week 2900, with hits 2 (workstation) and 1 (server). -/
theorem countme_week_rows_witness :
    (2900 : Int) ∈ complete_weeks exRawC3 ∧
    (((weekRowsC exRawC3 2900).map (fun t => t.bucket)).Nodup ∧
      (∀ t : TotalsItem, t ∈ weekRowsC exRawC3 2900 ↔
        t.bucket ∈ (week_iter_rows exRawC3 2900).map bucketOf ∧
          t.hits =
            ((week_iter_rows exRawC3 2900).map bucketOf).count t.bucket) ∧
      ∀ t ∈ weekRowsC exRawC3 2900, t.bucket.weeknum = 2900) ∧
    weekRowsC exRawC3 2900 =
      [⟨2, ⟨2900, "Fedora", "38", "workstation", "x86_64", 1,
          "f38", "x86_64"⟩⟩,
       ⟨1, ⟨2900, "Fedora", "38", "server", "x86_64", 1,
          "f38", "x86_64"⟩⟩] :=
  ⟨by decide, countme_week_rows exRawC3 2900 (by decide), by decide⟩

/-! Ingestion pipeline: `SQLiteWriter.has_item` / `write_item` and the
dupcheck loop in `parse_from_iterator` (`parse.py`). -/

/-- Method `SQLiteWriter.has_item`: a `SELECT COUNT` query in which every
field equals the item's field (an exact match across all fields), truthy
iff the count is nonzero. -/
def has_item (store : List CountmeItem) (item : CountmeItem) : Bool :=
  decide (0 < store.count item)

/-- Method `SQLiteWriter.write_item`: `INSERT` appends one row to the table. -/
def write_item (store : List CountmeItem) (item : CountmeItem) :
    List CountmeItem :=
  store ++ [item]

/-- Dupcheck loop of `parse_from_iterator` (`parse.py` lines 50-55): for
each matched item, skip it if `has_item` finds it in the store, otherwise
insert it immediately (not batched). -/
def dupcheck_ingest (store : List CountmeItem) (items : List CountmeItem) :
    List CountmeItem :=
  items.foldl (fun s i => if has_item s i then s else write_item s i) store

theorem dupcheck_ingest_cons (store : List CountmeItem) (a : CountmeItem)
    (as : List CountmeItem) :
    dupcheck_ingest store (a :: as) =
      dupcheck_ingest (if has_item store a then store else write_item store a)
        as := rfl

theorem dupcheck_ingest_superset {store : List CountmeItem} {r : CountmeItem} :
    ∀ {items : List CountmeItem}, r ∈ store → r ∈ dupcheck_ingest store items := by
  intro items
  induction items generalizing store with
  | nil => exact fun h => h
  | cons i is ih =>
    intro h
    rw [dupcheck_ingest_cons]
    by_cases hii : has_item store i = true
    · rw [if_pos hii]
      exact ih h
    · rw [if_neg hii]
      exact ih (List.mem_append_left _ h)

theorem dupcheck_ingest_mem_items {store items : List CountmeItem}
    {i : CountmeItem} (h : i ∈ items) : i ∈ dupcheck_ingest store items := by
  induction items generalizing store with
  | nil => cases h
  | cons a as ih =>
    rw [dupcheck_ingest_cons]
    rcases List.mem_cons.mp h with rfl | hmem
    · by_cases ha : has_item store i = true
      · rw [if_pos ha]
        have : i ∈ store := List.count_pos_iff.mp (of_decide_eq_true ha)
        exact dupcheck_ingest_superset this
      · rw [if_neg ha]
        exact dupcheck_ingest_superset
          (List.mem_append_right _ (List.mem_singleton_self i))
    · by_cases ha : has_item store a = true
      · rw [if_pos ha]
        exact ih hmem
      · rw [if_neg ha]
        exact ih hmem

theorem dupcheck_ingest_noop {store : List CountmeItem} :
    ∀ {items : List CountmeItem}, (∀ i ∈ items, i ∈ store) →
      dupcheck_ingest store items = store := by
  intro items
  induction items generalizing store with
  | nil => exact fun _ => rfl
  | cons a as ih =>
    intro h
    rw [dupcheck_ingest_cons]
    have ha : has_item store a = true :=
      decide_eq_true (List.count_pos_iff.mpr (h a (List.mem_cons_self a as)))
    rw [if_pos ha]
    exact ih (fun i hi => h i (List.mem_cons_of_mem a hi))

/-- C7: with dupcheck enabled, each matched record is checked for
existence in the store (exact match across all fields) and inserted only
if absent, so ingesting the same sequence of matched items twice leaves
the raw store identical to (in particular with the same row count as)
ingesting it once. -/
theorem dupcheck_ingest_idempotent (store items : List CountmeItem) :
    dupcheck_ingest (dupcheck_ingest store items) items =
      dupcheck_ingest store items :=
  dupcheck_ingest_noop (fun _ hi => dupcheck_ingest_mem_items hi)

/-! Log matcher: `LogMatcher.iteritems` (`matchers.py`). -/

/-- Diagnostic emitted by `LogMatcher.iteritems` for a line whose field
conversion raised: `print(f"IGNORING MALFORMED LINE: {line!r}")`, a
stderr message carrying the offending raw line. -/
def diagLine (line : String) : String := "IGNORING MALFORMED LINE: " ++ line

/-- One step of the `iteritems` loop body: try the structural regex on
the line; on a match, run `make_item`, which may raise (the `Except.error`
case); the exception is caught and turned into a diagnostic and the loop
continues.  The accumulator is the pair (yielded items, stderr lines). -/
def iteritems_step {M I : Type} (regex_match : String → Option M)
    (make_item : M → Except String I) :
    List I × List String → String → List I × List String :=
  fun acc line =>
    match regex_match line with
    | none => acc
    | some m =>
      match make_item m with
      | Except.ok item => (acc.1 ++ [item], acc.2)
      | Except.error _ => (acc.1, acc.2 ++ [diagLine line])

/-- Method `LogMatcher.iteritems`, abstracted over the structural regex (a
partial match function) and the `make_item` conversion (which may raise):
iterate over all lines, yielding items and diagnostics. -/
def iteritems {M I : Type} (regex_match : String → Option M)
    (make_item : M → Except String I) (lines : List String) :
    List I × List String :=
  lines.foldl (iteritems_step regex_match make_item) ([], [])

/-- Item produced for a single line, if any: a structural match whose
conversion succeeds. -/
def matched_item {M I : Type} (regex_match : String → Option M)
    (make_item : M → Except String I) (line : String) : Option I :=
  (regex_match line).bind (fun m => (make_item m).toOption)

/-- Whether a line matches the structural regex but its field conversion
raises. -/
def malformed_line {M I : Type} (regex_match : String → Option M)
    (make_item : M → Except String I) (line : String) : Bool :=
  match regex_match line with
  | none => false
  | some m =>
    match make_item m with
    | Except.ok _ => false
    | Except.error _ => true

theorem iteritems_go {M I : Type} (rx : String → Option M)
    (mk : M → Except String I) :
    ∀ (lines : List String) (acc : List I × List String),
      lines.foldl (iteritems_step rx mk) acc =
        (acc.1 ++ lines.filterMap (matched_item rx mk),
         acc.2 ++ (lines.filter (malformed_line rx mk)).map diagLine) := by
  intro lines
  induction lines with
  | nil => intro acc; simp
  | cons l ls ih =>
    intro acc
    rw [List.foldl_cons, ih]
    rcases hrx : rx l with _ | m
    · simp [iteritems_step, matched_item, malformed_line, hrx]
    · rcases hmk : mk m with e | item
      · simp [iteritems_step, matched_item, malformed_line, hrx, hmk,
          Except.toOption]
      · simp [iteritems_step, matched_item, malformed_line, hrx, hmk,
          Except.toOption]

/-- C8: `iteritems` yields exactly the items of the lines whose structural
match and field conversion both succeed, and emits one diagnostic (which
carries the offending raw line) for each line that matches structurally
but whose conversion raises — such a line is skipped and iteration
continues over the remaining lines, never aborting. -/
theorem iteritems_resilient {M I : Type} (regex_match : String → Option M)
    (make_item : M → Except String I) (lines : List String) :
    (iteritems regex_match make_item lines).1 =
      lines.filterMap (matched_item regex_match make_item) ∧
    (iteritems regex_match make_item lines).2 =
      (lines.filter (malformed_line regex_match make_item)).map diagLine := by
  unfold iteritems
  rw [iteritems_go]
  simp

/-! The `sys_age` field computed by `CountmeMatcher.make_item`
(`matchers.py`) from the request query string. -/

/-- Function `parse_querydict` (`util.py`): `dict(parse_qsl(querystr))`, i.e. the
last value wins when a key repeats.  The query string is embedded
post-splitting, as a list of key/value pairs, and the dict is read
through `.get`. -/
def parse_querydict (pairs : List (String × String)) (k : String) :
    Option String :=
  ((pairs.filter (fun p => p.1 == k)).getLast?).map (fun p => p.2)

/-- Accumulate decimal digits; fails on the first non-digit. -/
def parseDigitsAux (acc : Nat) : List Char → Option Nat
  | [] => some acc
  | c :: cs =>
    if c.isDigit then parseDigitsAux (acc * 10 + (c.toNat - 48)) cs else none

/-- Parse a nonempty run of decimal digits. -/
def parseDigits : List Char → Option Nat
  | [] => none
  | c :: cs => parseDigitsAux 0 (c :: cs)

/-- Core of Python `int(str)`: an optional leading minus sign followed by
decimal digits; `none` models the `ValueError` raise on anything else. -/
def str_to_int (s : String) : Option Int :=
  match s.data with
  | '-' :: cs => (parseDigits cs).map (fun n => -(n : Int))
  | cs => (parseDigits cs).map (fun n => (n : Int))

/-- The `sys_age` computed by `CountmeMatcher.make_item`:
`int(query.get("countme", -1))`.  When the parameter is absent the
integer default `-1` is used; when present, Python `int()` parses the
string value, raising on failure (modelled as `none`; the raise is
caught by `iteritems`, which drops the line). -/
def make_item_sys_age (query : List (String × String)) : Option Int :=
  match parse_querydict query "countme" with
  | none => some (-1)
  | some s => str_to_int s

/-- Counterexample to C10 as stated: a line whose query string carries
`countme=-5` is matched and converted successfully, yielding
`sys_age = -5`, which violates `sys_age >= -1`; and its `sys_age < 0`
although the countme parameter is present, so `sys_age < 0` does not
hold exactly for lines without a countme parameter. -/
theorem make_item_sys_age_cex :
    parse_querydict [("countme", "-5")] "countme" = some "-5" ∧
    make_item_sys_age [("countme", "-5")] = some (-5) ∧
    ¬(-1 : Int) ≤ -5 := by
  refine ⟨rfl, ?_, by decide⟩
  decide

/-- C10 amended: the `sys_age` of a `CountmeItem` produced by
`CountmeMatcher.make_item` is the parsed integer value of the line's
`countme` query parameter when it is present and parseable (which may be
any integer, including values below `-1`), and exactly the sentinel `-1`
when the parameter is absent; hence lines without a countme parameter
always get `sys_age < 0`, though `sys_age < 0` can also arise from a
present, negative countme value. -/
theorem make_item_sys_age_spec (query : List (String × String)) :
    (parse_querydict query "countme" = none →
      make_item_sys_age query = some (-1) ∧
        ∀ n, make_item_sys_age query = some n → n < 0) ∧
    (∀ s, parse_querydict query "countme" = some s →
      make_item_sys_age query = str_to_int s) := by
  constructor
  · intro h
    have h1 : make_item_sys_age query = some (-1) := by
      unfold make_item_sys_age
      rw [h]
    refine ⟨h1, fun n hn => ?_⟩
    rw [h1] at hn
    injection hn with h2
    omega
  · intro s hs
    unfold make_item_sys_age
    rw [hs]

/-- Witness for C10 amended: an empty query yields the sentinel `-1`, and
`countme=7` yields `sys_age = 7`. -/
theorem make_item_sys_age_spec_witness :
    make_item_sys_age [] = some (-1) ∧
    make_item_sys_age [("countme", "7")] = some 7 :=
  ⟨((make_item_sys_age_spec []).1 rfl).1,
   by
    rw [(make_item_sys_age_spec [("countme", "7")]).2 "7" rfl]
    decide⟩

/-! Unique-IP pass: `RawDBU.week_iter` via `SplitWeekDays` and
`BucketSelectUniqueIP` (`totals.py`). -/

/-- Day slice `d` of a week, as scanned by `SplitWeekDays.fetchall`:
`WHERE timestamp >= start_ts AND timestamp < end_ts` over day-long slices
with *no* `sys_age` filter — per the code's comment, "we look at _both_
unique/countme data here, so no sys_age checks". -/
def day_rows (raw : List CountmeItem) (w : Int) (d : Nat) : List CountmeItem :=
  raw.filter (fun r =>
    decide (week_start w + (d : Int) * DAY_LEN ≤ r.timestamp) &&
      decide (r.timestamp < week_start w + ((d : Int) + 1) * DAY_LEN))

/-- The `GROUP BY host, os_name, os_version, os_variant, os_arch,
repo_tag, repo_arch` key used by `SplitWeekDays.fetchall`. -/
def ipKey (r : CountmeItem) :
    String × String × String × String × String × String × String :=
  (r.host, r.os_name, r.os_version, r.os_variant, r.os_arch,
    r.repo_tag, r.repo_arch)

/-- One representative row per `GROUP BY` group.  SQLite leaves both the
choice of representative row and the group output order unspecified for
a non-aggregate `GROUP BY` query; this embedding determinizes them as
the first row of each group, groups in first-occurrence order.  (All
claims settled here only concern weeks at or after the start week, where
the representative choice does not affect the selected values.) -/
def group_reps : List CountmeItem → List CountmeItem
  | [] => []
  | r :: rs => r :: (group_reps rs).filter (fun s => decide (ipKey s ≠ ipKey r))

/-- Projection of a group row through `BucketSelectUniqueIP`: same as
`BucketSelect` except `sys_age` is the literal `-1` ("roll all sys_age
values into one for totals"). -/
def bucketOfU (r : CountmeItem) : CountBucket :=
  ⟨sqlWeeknum r.timestamp, r.os_name, r.os_version, r.os_variant, r.os_arch,
    -1, r.repo_tag, r.repo_arch⟩

/-- Stream yielded by `SplitWeekDays.fetchall` under
`BucketSelectUniqueIP`: for each of the 7 day slices in order, one
bucket per distinct group key. -/
def splitWeekDays (raw : List CountmeItem) (w : Int) : List CountBucket :=
  (List.range 7).flatMap
    (fun d => (group_reps (day_rows raw w d)).map bucketOfU)

/-- Rows written by the unique-IP pass of `totals()` for one week
(`totals.py` lines 312-320): bucket counting over
`rawdb.week_iter(week, select=BucketSelectUniqueIP)`. -/
def weekRowsU (raw : List CountmeItem) (w : Int) : List TotalsItem :=
  counterRows (splitWeekDays raw w)

/-- Variant of `splitWeekDays` following the words of the spec claim
("the unique-IP pass counts only rows with sys_age < 0"): the day slices
additionally filtered to unique-IP rows.  Declared only for comparison
with the code's `splitWeekDays`; the code does not implement this. -/
def splitWeekDaysSpecOnlyUnique (raw : List CountmeItem) (w : Int) :
    List CountBucket :=
  (List.range 7).flatMap
    (fun d =>
      (group_reps ((day_rows raw w d).filter isUniqueRow)).map bucketOfU)

/-- Unique-IP weekly rows under the spec-words variant. -/
def weekRowsUSpec (raw : List CountmeItem) (w : Int) : List TotalsItem :=
  counterRows (splitWeekDaysSpecOnlyUnique raw w)

theorem mem_day_rows {raw : List CountmeItem} {w : Int} {d : Nat}
    {r : CountmeItem} :
    r ∈ day_rows raw w d ↔
      r ∈ raw ∧ week_start w + (d : Int) * DAY_LEN ≤ r.timestamp ∧
        r.timestamp < week_start w + ((d : Int) + 1) * DAY_LEN := by
  unfold day_rows
  rw [List.mem_filter]
  simp [and_assoc]

theorem mem_group_reps {s : CountmeItem} :
    ∀ {rows : List CountmeItem}, s ∈ group_reps rows → s ∈ rows := by
  intro rows
  induction rows with
  | nil => exact fun h => h
  | cons r rs ih =>
    intro h
    rcases List.mem_cons.mp h with rfl | hmem
    · exact List.mem_cons_self _ _
    · exact List.mem_cons_of_mem _ (ih (List.mem_filter.mp hmem).1)

/-- Buckets written by the countme pass for week `w ≥ 0` carry weeknum `w`
and a nonnegative `sys_age`. -/
theorem weekRowsC_bucket {raw : List CountmeItem} {w : Int} {t : TotalsItem}
    (hw : 0 ≤ w) (ht : t ∈ weekRowsC raw w) :
    t.bucket.weeknum = w ∧ 0 ≤ t.bucket.sys_age := by
  have hmem := (mem_counterRows.mp ht).1
  rw [List.mem_map] at hmem
  obtain ⟨r, hr, hb⟩ := hmem
  have hfil := mem_week_iter_rows.mp hr
  rw [← hb]
  exact ⟨sqlWeeknum_of_week hw hfil.2.1 hfil.2.2.1, hfil.2.2.2⟩

/-- Buckets written by the unique-IP pass for week `w ≥ 0` carry weeknum
`w` and the sentinel `sys_age = -1`. -/
theorem weekRowsU_bucket {raw : List CountmeItem} {w : Int} {t : TotalsItem}
    (hw : 0 ≤ w) (ht : t ∈ weekRowsU raw w) :
    t.bucket.weeknum = w ∧ t.bucket.sys_age = -1 := by
  have hmem := (mem_counterRows.mp ht).1
  unfold splitWeekDays at hmem
  rw [List.mem_flatMap] at hmem
  obtain ⟨d, hd, hb⟩ := hmem
  rw [List.mem_map] at hb
  obtain ⟨r, hr, hbr⟩ := hb
  rw [← hbr]
  have hrr := mem_day_rows.mp (mem_group_reps hr)
  have hd7 : d < 7 := List.mem_range.mp hd
  have hb1 : week_start w ≤ r.timestamp := by
    have h1 := hrr.2.1
    unfold DAY_LEN at h1
    omega
  have hb2 : r.timestamp < week_start w + WEEK_LEN := by
    have h2 := hrr.2.2
    unfold WEEK_LEN DAY_LEN at *
    omega
  exact ⟨sqlWeeknum_of_week hw hb1 hb2, rfl⟩

/-- Concrete raw store for the C4 counterexample: in week 2614, one
unique-IP row (host a) and one countme row (host b) with identical
OS/repo fields, plus a unique-IP row at the start of week 2616 that makes
week 2614 complete for the unique-IP stream. -/
def exRawC4 : List CountmeItem :=
  [⟨1581292800, "a", "Fedora", "38", "workstation", "x86_64",
      -1, "f38", "x86_64"⟩,
   ⟨1581292801, "b", "Fedora", "38", "workstation", "x86_64",
      7, "f38", "x86_64"⟩,
   ⟨1582502400, "c", "Fedora", "38", "workstation", "x86_64",
      -1, "f38", "x86_64"⟩]

/-- The single bucket of week 2614 in `exRawC4`. -/
def exBucketC4 : CountBucket :=
  ⟨2614, "Fedora", "38", "workstation", "x86_64", -1, "f38", "x86_64"⟩

/-- Counterexample to C4 as stated: week 2614 is complete for the
unique-IP stream of `exRawC4`, and its unique-IP pass counts 2 group
rows for the single bucket — the countme row (`sys_age = 7`, host b)
participates in the grouping — whereas restricting the grouping to rows
with `sys_age < 0`, as the claim describes, would count 1. -/
theorem unique_pass_counts_both_classes :
    (2614 : Int) ∈ complete_weeksU exRawC4 ∧
    weekRowsU exRawC4 2614 = [⟨2, exBucketC4⟩] ∧
    weekRowsUSpec exRawC4 2614 = [⟨1, exBucketC4⟩] := by
  refine ⟨by decide, by decide, by decide⟩

/-- C4 amended: in the countme pass exactly the raw rows with
`sys_age >= 0` inside the week window participate, but the unique-IP
pass groups each day slice over *all* rows in the window regardless of
record class — its membership condition carries no `sys_age`
constraint.  (Only the unique-IP stream's completeness window and its
`week_count` estimate are restricted to `sys_age < 0` rows.) -/
theorem pass_record_class (raw : List CountmeItem) (w : Int) :
    (∀ r : CountmeItem, r ∈ week_iter_rows raw w ↔
      r ∈ raw ∧ week_start w ≤ r.timestamp ∧
        r.timestamp < week_start w + WEEK_LEN ∧ 0 ≤ r.sys_age) ∧
    ∀ (d : Nat) (r : CountmeItem), r ∈ day_rows raw w d ↔
      r ∈ raw ∧ week_start w + (d : Int) * DAY_LEN ≤ r.timestamp ∧
        r.timestamp < week_start w + ((d : Int) + 1) * DAY_LEN :=
  ⟨fun _ => mem_week_iter_rows, fun _ _ => mem_day_rows⟩

/-! Missing-value workaround in `parse_from_iterator` (`parse.py`). -/

/-- A matched item before the missing-values workaround: fields coming
from optional captures or query parameters may be absent (`None`); since
Python's `None in i` inspects the whole tuple, every field is embedded
as optional. -/
structure CountmeItemOpt where
  timestamp : Option Int
  host : Option String
  os_name : Option String
  os_version : Option String
  os_variant : Option String
  os_arch : Option String
  sys_age : Option Int
  repo_tag : Option String
  repo_arch : Option String
  deriving DecidableEq

/-- Python `None in i` over the item tuple: is any field `None`? -/
def item_has_none (i : CountmeItemOpt) : Bool :=
  i.timestamp.isNone || i.host.isNone || i.os_name.isNone ||
    i.os_version.isNone || i.os_variant.isNone || i.os_arch.isNone ||
      i.sys_age.isNone || i.repo_tag.isNone || i.repo_arch.isNone

/-- The countme-mode workaround in `parse_from_iterator` (`parse.py`
lines 45-47): `match_iter = (i for i in match_iter if None not in i)`. -/
def countme_mode_filter (items : List CountmeItemOpt) : List CountmeItemOpt :=
  items.filter (fun i => !item_has_none i)

/-- A matched record with a missing field: its `repo_tag` query parameter
was absent, so `query.get("repo")` returned `None`. -/
def exMissingItem : CountmeItemOpt :=
  ⟨some 1754265610, some "h1", some "Fedora", some "38", some "workstation",
    some "x86_64", some (-1), none, some "x86_64"⟩

/-- Counterexample to C5 as stated: in countme mode a matched record with
a missing field is dropped by the filter — nothing at all is persisted
for it — rather than being normalized to a sentinel form and written. -/
theorem countme_mode_filter_drops :
    item_has_none exMissingItem = true ∧
    countme_mode_filter [exMissingItem] = [] := by
  refine ⟨rfl, by decide⟩

/-- C5 amended: when the pipeline runs in countme mode, every matched
record with a missing (`None`) field is filtered out before persistence
— it is not written to the store at all — and exactly the records with
no missing field are passed through, unchanged, to the writer. -/
theorem countme_mode_filter_spec (items : List CountmeItemOpt) :
    ∀ i : CountmeItemOpt, i ∈ countme_mode_filter items ↔
      i ∈ items ∧ item_has_none i = false := by
  intro i
  unfold countme_mode_filter
  rw [List.mem_filter]
  simp

/-! The `totals()` driver (`totals.py` lines 250-321): per-stream
high-water marks over the totals store and the two incremental passes. -/

/-- Totals-table rows belonging to the countme stream
(`WHERE sys_age >= 0` on `countme_totals`). -/
def rowIsCountme (t : TotalsItem) : Bool := decide (0 ≤ t.bucket.sys_age)

/-- Totals-table rows belonging to the unique-IP stream
(`WHERE sys_age < 0` on `countme_totals`). -/
def rowIsUnique (t : TotalsItem) : Bool := decide (t.bucket.sys_age < 0)

/-- SQL `MAX(weeknum)` over the totals rows of one stream. -/
def maxweekBy (p : TotalsItem → Bool) (tot : List TotalsItem) : Option Int :=
  sqlMax ((tot.filter p).map (fun t => t.bucket.weeknum))

/-- Query `totals.maxtime_countme` on the totals store (timefield `weeknum`,
`WHERE sys_age >= 0`). -/
def totals_maxtime_countme (tot : List TotalsItem) : Option Int :=
  maxweekBy rowIsCountme tot

/-- Query `totals.maxtime_unique` on the totals store (timefield `weeknum`,
`WHERE sys_age < 0`). -/
def totals_maxtime_unique (tot : List TotalsItem) : Option Int :=
  maxweekBy rowIsUnique tot

/-- Assignment `latest_week_in_totals = totals.maxtime_xxx or -1`: Python `or`
falls back to `-1` when the SQL MAX is `NULL` — and also when it is `0`,
since `0` is falsy in Python. -/
def latestOf : Option Int → Int
  | none => -1
  | some m => if m = 0 then -1 else m

/-- Countme pass of `totals()` (lines 264-290): filter the complete weeks
to those strictly above the countme high-water mark
(`new_weeks = [w for w in complete_weeks if w > int(latest_week_in_totals)]`)
and concatenate the bucket-counted rows of each such week, in week
order. -/
def countmePass (raw : List CountmeItem) (tot : List TotalsItem) :
    List TotalsItem :=
  ((complete_weeks raw).filter
    (fun w => decide (latestOf (totals_maxtime_countme tot) < w))).flatMap
      (weekRowsC raw)

/-- Unique-IP pass of `totals()` (lines 292-321), same structure with the
unique-IP complete weeks, high-water mark and week rows. -/
def uniquePass (raw : List CountmeItem) (tot : List TotalsItem) :
    List TotalsItem :=
  ((complete_weeksU raw).filter
    (fun w => decide (latestOf (totals_maxtime_unique tot) < w))).flatMap
      (weekRowsU raw)

/-- One run of `totals()` over a raw store and a totals store: the countme
pass appends its rows first, then the unique-IP pass reads the updated
store (its high-water query runs after the countme rows were written) and
appends its own rows. -/
def totals_run (raw : List CountmeItem) (tot : List TotalsItem) :
    List TotalsItem :=
  (tot ++ countmePass raw tot) ++
    uniquePass raw (tot ++ countmePass raw tot)

/-! Lemmas about `sqlMax` and the high-water marks. -/

theorem sqlMax_eq_none {l : List Int} : sqlMax l = none ↔ l = [] := by
  cases l with
  | nil => simp [sqlMax]
  | cons x xs =>
    simp only [sqlMax]
    constructor
    · intro h
      rcases hys : sqlMax xs with _ | m <;> rw [hys] at h <;> cases h
    · intro h
      cases h

theorem sqlMax_le {x : Int} :
    ∀ {l : List Int} {m : Int}, x ∈ l → sqlMax l = some m → x ≤ m := by
  intro l
  induction l with
  | nil => intro m hx; cases hx
  | cons y ys ih =>
    intro m hx hm
    rw [sqlMax] at hm
    rcases hys : sqlMax ys with _ | m0 <;> rw [hys] at hm <;>
      injection hm with hm
    · have hnil : ys = [] := sqlMax_eq_none.mp hys
      rcases List.mem_cons.mp hx with rfl | hmem
      · omega
      · rw [hnil] at hmem
        cases hmem
    · rcases List.mem_cons.mp hx with rfl | hmem
      · rw [← hm]
        exact le_max_left _ _
      · calc x ≤ m0 := ih hmem hys
          _ ≤ m := by rw [← hm]; exact le_max_right _ _

theorem sqlMax_mem : ∀ {l : List Int} {m : Int}, sqlMax l = some m → m ∈ l := by
  intro l
  induction l with
  | nil => intro m h; cases h
  | cons y ys ih =>
    intro m hm
    rw [sqlMax] at hm
    rcases hys : sqlMax ys with _ | m0 <;> rw [hys] at hm <;>
      injection hm with hm
    · rw [← hm]
      exact List.mem_cons_self _ _
    · rcases max_choice y m0 with h | h <;> rw [h] at hm
      · rw [← hm]
        exact List.mem_cons_self _ _
      · rw [← hm]
        exact List.mem_cons_of_mem _ (ih hys)

theorem sqlMax_exists_of_mem {l : List Int} {x : Int} (hx : x ∈ l) :
    ∃ m, sqlMax l = some m ∧ x ≤ m := by
  rcases hl : sqlMax l with _ | m
  · rw [sqlMax_eq_none.mp hl] at hx
    cases hx
  · exact ⟨m, rfl, sqlMax_le hx hl⟩

theorem latestOf_some (m : Int) :
    latestOf (some m) = if m = 0 then -1 else m := rfl

theorem latestOf_none : latestOf none = -1 := rfl

theorem latestOf_mono {m M : Int} (h : m ≤ M) :
    latestOf (some m) ≤ latestOf (some M) := by
  rw [latestOf_some, latestOf_some]
  split_ifs <;> omega

theorem latestOf_pos {m : Int} (h : 0 < m) : latestOf (some m) = m := by
  rw [latestOf_some, if_neg (by omega)]

/-- Appending totals rows whose stream-relevant members all carry a
positive weeknum can only raise (never lower) a stream's high-water
mark. -/
theorem latest_le_append (p : TotalsItem → Bool) (tot add : List TotalsItem)
    (hadd : ∀ t ∈ add, p t = true → 0 < t.bucket.weeknum) :
    latestOf (maxweekBy p tot) ≤ latestOf (maxweekBy p (tot ++ add)) := by
  have hsplit : maxweekBy p (tot ++ add) =
      sqlMax (((tot.filter p).map (fun t => t.bucket.weeknum)) ++
        ((add.filter p).map (fun t => t.bucket.weeknum))) := by
    unfold maxweekBy
    rw [List.filter_append, List.map_append]
  rcases h1 : maxweekBy p tot with _ | m
  · have hnil : (tot.filter p).map (fun t => t.bucket.weeknum) = [] :=
      sqlMax_eq_none.mp h1
    rw [hsplit, hnil, List.nil_append]
    rcases h2 : sqlMax ((add.filter p).map (fun t => t.bucket.weeknum))
      with _ | M
    · rw [h2]
    · rw [h2]
      have hM := sqlMax_mem h2
      rw [List.mem_map] at hM
      obtain ⟨t, htf, hMw⟩ := hM
      have htmem := List.mem_filter.mp htf
      have hpos : 0 < M := by
        rw [← hMw]
        exact hadd t htmem.1 htmem.2
      rw [latestOf_pos hpos, latestOf_none]
      omega
  · obtain ⟨M, hM, hle⟩ :=
      sqlMax_exists_of_mem (List.mem_append_left
        ((add.filter p).map (fun t => t.bucket.weeknum)) (sqlMax_mem h1))
    rw [hsplit, hM]
    exact latestOf_mono hle

/-- A stream-relevant row with positive weeknum already in the totals
store bounds the stream's high-water mark from below. -/
theorem le_latest_of_mem (p : TotalsItem → Bool) {tot : List TotalsItem}
    {t : TotalsItem} (ht : t ∈ tot) (hp : p t = true)
    (hpos : 0 < t.bucket.weeknum) :
    t.bucket.weeknum ≤ latestOf (maxweekBy p tot) := by
  have hmem : t.bucket.weeknum ∈
      (tot.filter p).map (fun t => t.bucket.weeknum) :=
    List.mem_map.mpr ⟨t, List.mem_filter.mpr ⟨ht, hp⟩, rfl⟩
  obtain ⟨M, hM, hle⟩ := sqlMax_exists_of_mem hmem
  unfold maxweekBy
  rw [hM, latestOf_pos (lt_of_lt_of_le hpos hle)]
  exact hle

/-! Membership and emptiness of the two passes. -/

theorem mem_pass_iff {weeks : List Int} {lat : Int} {f : Int → List TotalsItem}
    {t : TotalsItem} :
    t ∈ (weeks.filter (fun w => decide (lat < w))).flatMap f ↔
      ∃ w, w ∈ weeks ∧ lat < w ∧ t ∈ f w := by
  rw [List.mem_flatMap]
  constructor
  · rintro ⟨w, hw, ht⟩
    have hm := List.mem_filter.mp hw
    exact ⟨w, hm.1, of_decide_eq_true hm.2, ht⟩
  · rintro ⟨w, hw, hlat, ht⟩
    exact ⟨w, List.mem_filter.mpr ⟨hw, decide_eq_true hlat⟩, ht⟩

theorem pass_eq_nil {weeks : List Int} {lat : Int} {f : Int → List TotalsItem}
    (h : ∀ w ∈ weeks, lat < w → f w = []) :
    (weeks.filter (fun w => decide (lat < w))).flatMap f = [] := by
  rw [List.flatMap_eq_nil_iff]
  intro w hw
  have hm := List.mem_filter.mp hw
  exact h w hm.1 (of_decide_eq_true hm.2)

/-- Every row appended by the countme pass carries a weeknum at or after
the start week and a nonnegative `sys_age`. -/
theorem countmePass_row_facts {raw : List CountmeItem} {tot : List TotalsItem}
    {t : TotalsItem} (ht : t ∈ countmePass raw tot) :
    COUNTME_START_WEEKNUM ≤ t.bucket.weeknum ∧ 0 ≤ t.bucket.sys_age := by
  obtain ⟨w, hw, _, htw⟩ := mem_pass_iff.mp ht
  have hst := mem_complete_weeks_start hw
  have h0 : (0 : Int) ≤ w := le_trans (by decide) hst
  obtain ⟨he, hs⟩ := weekRowsC_bucket h0 htw
  rw [he]
  exact ⟨hst, hs⟩

/-- Every row appended by the unique-IP pass carries a weeknum at or
after the start week and the sentinel `sys_age = -1`. -/
theorem uniquePass_row_facts {raw : List CountmeItem} {tot : List TotalsItem}
    {t : TotalsItem} (ht : t ∈ uniquePass raw tot) :
    COUNTME_START_WEEKNUM ≤ t.bucket.weeknum ∧ t.bucket.sys_age = -1 := by
  obtain ⟨w, hw, _, htw⟩ := mem_pass_iff.mp ht
  have hst := mem_complete_weeksU_start hw
  have h0 : (0 : Int) ≤ w := le_trans (by decide) hst
  obtain ⟨he, hs⟩ := weekRowsU_bucket h0 htw
  rw [he]
  exact ⟨hst, hs⟩

/-- C2: running `totals()` twice in a row on the same raw store, with no
new raw data in between, writes zero new rows on the second run: each
stream's high-water mark (`maxtime_countme` / `maxtime_unique` over the
totals store, with `-1` as the "no data yet" sentinel) already covers
every complete week that has any data of its stream, so the second run's
eligible weeks all produce empty row sets and the totals-store contents
after the second run equal the contents after the first. -/
theorem totals_run_idempotent (raw : List CountmeItem) (tot : List TotalsItem) :
    totals_run raw (totals_run raw tot) = totals_run raw tot := by
  have hP2 : countmePass raw (totals_run raw tot) = [] := by
    unfold countmePass
    apply pass_eq_nil
    intro w hw hlat
    by_contra hne
    obtain ⟨t, ht⟩ := List.exists_mem_of_ne_nil _ hne
    have hst := mem_complete_weeks_start hw
    have h0 : (0 : Int) ≤ w := le_trans (by decide) hst
    obtain ⟨he, hs⟩ := weekRowsC_bucket h0 ht
    have hlat1 : latestOf (totals_maxtime_countme tot) <
        latestOf (totals_maxtime_countme (totals_run raw tot)) + 1 := by
      have hgrow : latestOf (totals_maxtime_countme tot) ≤
          latestOf (totals_maxtime_countme (totals_run raw tot)) := by
        unfold totals_run totals_maxtime_countme
        rw [List.append_assoc]
        apply latest_le_append
        intro t' ht' _
        rcases List.mem_append.mp ht' with h | h
        · have := (countmePass_row_facts h).1
          unfold COUNTME_START_WEEKNUM at this
          omega
        · have := (uniquePass_row_facts h).1
          unfold COUNTME_START_WEEKNUM at this
          omega
      omega
    have htP1 : t ∈ countmePass raw tot := by
      unfold countmePass
      apply mem_pass_iff.mpr
      exact ⟨w, hw, by omega, ht⟩
    have htS1 : t ∈ totals_run raw tot := by
      unfold totals_run
      exact List.mem_append_left _ (List.mem_append_right _ htP1)
    have hbound := le_latest_of_mem rowIsCountme htS1
      (decide_eq_true hs) (by rw [he]; unfold COUNTME_START_WEEKNUM at hst; omega)
    rw [he] at hbound
    unfold totals_maxtime_countme at hlat
    omega
  have hU2 : uniquePass raw (totals_run raw tot) = [] := by
    unfold uniquePass
    apply pass_eq_nil
    intro w hw hlat
    by_contra hne
    obtain ⟨t, ht⟩ := List.exists_mem_of_ne_nil _ hne
    have hst := mem_complete_weeksU_start hw
    have h0 : (0 : Int) ≤ w := le_trans (by decide) hst
    obtain ⟨he, hs⟩ := weekRowsU_bucket h0 ht
    have hgrow : latestOf (totals_maxtime_unique (tot ++ countmePass raw tot)) ≤
        latestOf (totals_maxtime_unique (totals_run raw tot)) := by
      unfold totals_run totals_maxtime_unique
      apply latest_le_append
      intro t' ht' _
      have := (uniquePass_row_facts ht').1
      unfold COUNTME_START_WEEKNUM at this
      omega
    have htU1 : t ∈ uniquePass raw (tot ++ countmePass raw tot) := by
      unfold uniquePass
      apply mem_pass_iff.mpr
      refine ⟨w, hw, ?_, ht⟩
      omega
    have htS1 : t ∈ totals_run raw tot := by
      unfold totals_run
      exact List.mem_append_right _ htU1
    have hbound := le_latest_of_mem rowIsUnique htS1
      (decide_eq_true (by rw [hs]; decide))
      (by rw [he]; unfold COUNTME_START_WEEKNUM at hst; omega)
    rw [he] at hbound
    unfold totals_maxtime_unique at hlat
    omega
  show (totals_run raw tot ++ countmePass raw (totals_run raw tot)) ++
      uniquePass raw
        (totals_run raw tot ++ countmePass raw (totals_run raw tot)) =
    totals_run raw tot
  rw [hP2, List.append_nil, hU2, List.append_nil]

/-- Concrete raw store for the C2 counterexample: a countme row at the
start of week 2614 and another at the start of week 2617, so weeks 2614
and 2615 are complete but week 2615 holds no data. -/
def exRawC2 : List CountmeItem :=
  [⟨1581292800, "a", "Fedora", "38", "workstation", "x86_64",
      0, "f38", "x86_64"⟩,
   ⟨1583107200, "b", "Fedora", "38", "workstation", "x86_64",
      0, "f38", "x86_64"⟩]

/-- Counterexample to C2 as stated: after a first run of `totals()` on
`exRawC2`, the second run's eligible-week list for the countme stream is
`[2615]` — not empty, because the dataless complete week 2615 never
enters the high-water mark — even though the second run still writes
zero new rows and leaves the totals store unchanged. -/
theorem second_run_eligible_weeks_nonempty :
    (complete_weeks exRawC2).filter
      (fun w => decide (latestOf
        (totals_maxtime_countme (totals_run exRawC2 [])) < w)) = [2615] ∧
    totals_run exRawC2 (totals_run exRawC2 []) = totals_run exRawC2 [] := by
  refine ⟨by decide, by decide⟩

end Countme
